import Mathlib

/-!
Request processor of mort (`pkg/processor/processor.go`).

A shallow embedding of the request processor: the parent-chain walk, the
selection loop of `handleGET`, the transform gate, `processImage`,
`collapseGET`, `process` and `updateHeaders`.

Collaborators that live in other packages (storage, engine, throttler, lock,
the derivative cache, the `Response` and `FileObject` types) are either taken
as parameters (`Env`) or modelled from the specification; each such
definition says so in its doc comment.

Goroutines and `select` are embedded as a schedule: the list of arms that the
successive `select` statements of a loop take.  An arm whose channel has no
pending sender cannot fire in Go, so taking it in the model is the `default`
arm.  A loop that uses up its schedule without leaving halts with
`Halt.scheduleExhausted`.

The exported `Process`, which races the worker against the request timer, and
the `Close` calls on response streams are not embedded.
-/

namespace Mort

/-! ## Data model -/

/-- Modelled from the spec: package `transforms` is not among the sources; a
transformation step list is opaque to the processor. -/
structure Transforms where
  steps : List String
  deriving DecidableEq, Repr

/-- Modelled from the spec: the scalar attributes of `object.FileObject`
(`key`, `bucket`, `has_transform`, `transforms`, `check_parent`). -/
structure ObjectData where
  Key : String
  Bucket : String
  hasTransform : Bool
  Transforms : Transforms
  CheckParent : Bool
  deriving DecidableEq, Repr

/-- Modelled from the spec: `object.FileObject` with its optional `parent`
reference; the chain is finite and acyclic. `root` is an object whose `Parent`
is nil. -/
inductive FileObject where
  | root (d : ObjectData)
  | derived (d : ObjectData) (Parent : FileObject)
  deriving DecidableEq, Repr

namespace FileObject

/-- Scalar attributes of an object. -/
def data : FileObject → ObjectData
  | root d => d
  | derived d _ => d

/-- The field `Parent` (nil for a root). -/
def Parent : FileObject → Option FileObject
  | root _ => none
  | derived _ p => some p

/-- The field `Key`. -/
def Key (o : FileObject) : String := o.data.Key

/-- The field `Bucket`. -/
def Bucket (o : FileObject) : String := o.data.Bucket

/-- The field `CheckParent`. -/
def CheckParent (o : FileObject) : Bool := o.data.CheckParent

/-- The field `Transforms`. -/
def Transforms (o : FileObject) : Mort.Transforms := o.data.Transforms

/-- Modelled from the spec: `HasParent()` of the absent package `object`: the
parent reference is present. -/
def HasParent (o : FileObject) : Bool := o.Parent.isSome

/-- Modelled from the spec: `HasTransform()` of the absent package `object`:
the attribute `has_transform`. -/
def HasTransform (o : FileObject) : Bool := o.data.hasTransform

end FileObject

/-- Header map of a request or response (`http.Header`), as an association
list read through its first entry for a name. -/
abbrev Header := List (String × String)

/-- The call `Header.Get`: the value stored for a name, the empty string when
there is none. -/
def headerGet (h : Header) (name : String) : String := (h.lookup name).getD ""

/-- Modelled from the spec: `Response.Set(name, value)` of the absent package
`response`: overlay one `(header → value)` pair, replacing the value stored
for the name or adding the name. -/
def headerSet (name value : String) : Header → Header
  | [] => [(name, value)]
  | (k, v) :: t => if k = name then (name, value) :: t else (k, v) :: headerSet name value t

/-- Modelled from the spec: `response.Response`. `addr` is the identity of the
object a `*response.Response` points to; `body` stands for the stream. -/
structure Response where
  addr : Nat
  StatusCode : Int
  Headers : Header
  ContentLength : Int
  body : String
  deriving DecidableEq, Repr

/-- Modelled from the spec: one header rule of the configuration
(`config.HeaderYaml`): `status_codes` and the `values` map, the map as the
list of its pairs in iteration order. -/
structure HeaderYaml where
  StatusCodes : List Int
  Values : List (String × String)
  deriving DecidableEq, Repr

/-- The part of `http.Request` the processor reads; `Query` maps a query
parameter to its first value. -/
structure Request where
  Method : String
  Header : Header
  ContentLength : Int
  Body : String
  Query : List (String × String)
  deriving DecidableEq, Repr

/-- Arguments of one call of `processImage` (and of `engine.Process`). -/
structure ImageCall where
  obj : FileObject
  parent : Response
  transforms : List Transforms
  deriving DecidableEq, Repr

/-- Mutable state the processor touches, with a log of the effects it has:
the allocation counter for `Response` objects, the derivative cache (a stored
pointer may be nil), the keys probed in the cache, the throttler calls, the
calls of `processImage` and of the engine, the write-backs started, the
`Cancel` signals sent to the lock and the `NotifyAndRelease` calls started. -/
structure World where
  nextAddr : Nat
  cache : List (String × Option Response)
  cacheGets : List String
  takes : Nat
  releases : Nat
  imageCalls : List ImageCall
  engineCalls : List ImageCall
  writeBacks : List (FileObject × Response)
  cancels : Nat
  notifies : List (String × Response)
  deriving DecidableEq, Repr

/-- External collaborators, as parameters: the configured header rules, the
storage primitives, `strconv.Atoi` (0 on error), the answer of
`throttler.Take`, the image engine, whether `Response.Copy` fails on a
response, and whether `lock.Lock` grants the key. -/
structure Env where
  Headers : List HeaderYaml
  storageGet : FileObject → Response
  storageHead : FileObject → Response
  storageSet : FileObject → Header → Int → String → Response
  storageList : FileObject → Int → String → String → String → Response
  atoi : String → Int
  throttlerTake : Bool
  engineProcess : FileObject → Response → List Transforms → Except String Response
  copyFails : Response → Bool
  lockAcquired : String → Bool

/-- Ways a run stops without a response: a nil `parentRes`, a nil cached
pointer or an out-of-range index is dereferenced, the fuel of a bounded loop
runs out, or the schedule ends while a loop is still waiting. -/
inductive Halt where
  | nilParentRes
  | nilCacheValue
  | indexOutOfRange
  | outOfFuel
  | scheduleExhausted
  deriving DecidableEq, Repr

/-- Arms of the `select` in the selection loop of `handleGET`. -/
inductive Arm where
  | ctxDone
  | resChan
  | parentChan
  | dflt
  deriving DecidableEq, Repr

/-- Arms of the `select` in the wait loop of `collapseGET`; `delivered` is a
value received from `ResponseChan`, `closed` the channel found closed. -/
inductive WaitArm where
  | ctxDone
  | delivered (res : Response)
  | closed
  | timer
  | dflt
  deriving DecidableEq, Repr

/-! ## Responses and the cache -/

/-- The constant `s3LocationStr`. -/
def s3LocationStr : String :=
  "<?xml version=\"1.0\" encoding=\"UTF-8\"?><LocationConstraint xmlns=\"http://s3.amazonaws.com/doc/2006-03-01/\">EU</LocationConstraint>"

/-- Modelled from the spec: `response.HeaderContentType`, the name of the
`Content-Type` header. -/
def HeaderContentType : String := "Content-Type"

/-- Modelled from the spec: `response.NewNoContent(status)`: a new response
with the status and no content. -/
def NewNoContent (status : Int) (w : World) : Response × World :=
  (⟨w.nextAddr, status, [], 0, ""⟩, { w with nextAddr := w.nextAddr + 1 })

/-- Modelled from the spec: `response.NewString(status, body)`: a new response
with the status and the body. -/
def NewString (status : Int) (body : String) (w : World) : Response × World :=
  (⟨w.nextAddr, status, [], body.length, body⟩, { w with nextAddr := w.nextAddr + 1 })

/-- Modelled from the spec: `response.NewError(status, err)`: a new response
with the status that carries the error. -/
def NewError (status : Int) (err : String) (w : World) : Response × World :=
  (⟨w.nextAddr, status, [], err.length, err⟩, { w with nextAddr := w.nextAddr + 1 })

/-- Modelled from the spec: `Response.Copy()`: a detached copy, a new object
with the contents of the receiver; `none` stands for `(nil, err)`. -/
def Copy (env : Env) (r : Response) (w : World) : Option Response × World :=
  if env.copyFails r then (none, w)
  else (some { r with addr := w.nextAddr }, { w with nextAddr := w.nextAddr + 1 })

/-- Modelled from the spec: `cache.Get(key)` of the derivative cache: the
stored pointer, if the key is present, and the probe is logged. -/
def cacheGet (key : String) (w : World) : Option (Option Response) × World :=
  (w.cache.lookup key, { w with cacheGets := w.cacheGets ++ [key] })

/-- Modelled from the spec: `cache.Set(key, value, ttl)` of the derivative
cache. -/
def cacheSet (key : String) (v : Option Response) (w : World) : World :=
  { w with cache := (key, v) :: w.cache.filter (fun e => e.1 ≠ key) }

/-- The call `strings.Contains(s, substr)` on character lists. -/
def containsChars (sub : List Char) : List Char → Bool
  | [] => sub.isEmpty
  | c :: t => sub.isPrefixOf (c :: t) || containsChars sub t

/-- The call `strings.Contains(s, substr)`. -/
def stringsContains (s substr : String) : Bool := containsChars substr.toList s.toList

/-- The call `strings.HasPrefix(s, p)`: `s` begins with `p`. -/
def stringsHasPrefix (s p : String) : Bool := p.toList.isPrefixOf s.toList

/-! ## `updateHeaders` -/

/-- Innermost loop of `updateHeaders`: `res.Set(h, v)` for every pair of the
rule, in iteration order. -/
def setValues : List (String × String) → Response → Response
  | [], res => res
  | (h, v) :: rest, res => setValues rest { res with Headers := headerSet h v res.Headers }

/-- The header map after `Set(h, v)` for every pair of a rule, in iteration
order: what `setValues` does to the field `Headers`. -/
def overlay : List (String × String) → Header → Header
  | [], l => l
  | (h, v) :: rest, l => overlay rest (headerSet h v l)

/-- The first rule, in configuration order, whose `status_codes` contain the
status code. -/
def firstRule (headers : List HeaderYaml) (status : Int) : Option HeaderYaml :=
  headers.find? (fun p => decide (status ∈ p.StatusCodes))

/-- Loop of `updateHeaders` over the status codes of one rule: at the first
code equal to the status of the response the values are set and the function
returns (`some`); `none` when the range ends without a match. -/
def rangeStatusCodes (values : List (String × String)) (res : Response) : List Int → Option Response
  | [] => none
  | status :: rest =>
    if status = res.StatusCode then some (setValues values res)
    else rangeStatusCodes values res rest

/-- The function `updateHeaders` (lines 317-330); `headers` is
`config.GetInstance().Headers`. -/
def updateHeaders : List HeaderYaml → Response → Response
  | [], res => res
  | headerPred :: rest, res =>
    match rangeStatusCodes headerPred.Values res headerPred.StatusCodes with
    | some r => r
    | none => updateHeaders rest res

/-! ## `processImage` -/

/-- The function `processImage` (lines 287-315). The deferred `Release` runs
on every return after it was registered; the goroutine that writes the copy
back is logged in `writeBacks` when it is started. -/
def processImage (env : Env) (obj : FileObject) (parent : Response)
    (transforms : List Transforms) (w : World) : Response × World :=
  let w := { w with imageCalls := w.imageCalls ++ [⟨obj, parent, transforms⟩], takes := w.takes + 1 }
  if !env.throttlerTake then
    NewNoContent 503 w
  else
    let w := { w with engineCalls := w.engineCalls ++ [⟨obj, parent, transforms⟩] }
    match env.engineProcess obj parent transforms with
    | .error err =>
      let (r, w) := NewError 400 err w
      (r, { w with releases := w.releases + 1 })
    | .ok res =>
      let (resCpy, w) := Copy env res w
      let w := cacheSet obj.Key resCpy w
      let w := match resCpy with
        | some resS => { w with writeBacks := w.writeBacks ++ [(obj, resS)] }
        | none => w
      (res, { w with releases := w.releases + 1 })

/-! ## `handleGET` -/

/-- The function `handleS3Get` (lines 255-285). -/
def handleS3Get (env : Env) (req : Request) (obj : FileObject) (w : World) : Response × World :=
  if (req.Query.lookup "location").isSome then
    NewString 200 s3LocationStr w
  else
    let maxKeys : Int := match req.Query.lookup "max-keys" with
      | some q => env.atoi q
      | none => 1000
    let delimeter := (req.Query.lookup "delimeter").getD ""
    let pfx := (req.Query.lookup "prefix").getD ""
    let marker := (req.Query.lookup "marker").getD ""
    (env.storageList obj maxKeys delimeter pfx marker, w)

/-- Parent-chain walk of `handleGET` (lines 166-176), from `currObj` with the
`transforms` and `parentObj` collected so far. -/
def walk : FileObject → List Transforms → Option FileObject → List Transforms × Option FileObject
  | .root _, transforms, parentObj => (transforms, parentObj)
  | .derived d p, transforms, parentObj =>
    let currObj := FileObject.derived d p
    let transforms := if currObj.HasTransform then transforms ++ [currObj.Transforms] else transforms
    let parentObj := if !p.HasParent then some p else parentObj
    walk p transforms parentObj

/-- The assignment `transforms[i], transforms[j] = transforms[j], transforms[i]`;
`none` when an index is out of range. -/
def swapTransforms (transforms : List Transforms) (i j : Nat) : Option (List Transforms) :=
  match transforms.get? i, transforms.get? j with
  | some a, some b => some ((transforms.set i b).set j a)
  | _, _ => none

/-- The loop `for i := 0; i < len(transforms)/2; i++` of lines 239-242, from
`i`; `fuel` bounds the number of iterations. -/
def reverseLoop : Nat → Nat → List Transforms → Except Halt (List Transforms)
  | 0, _, _ => .error .outOfFuel
  | fuel + 1, i, transforms =>
    if i < transforms.length / 2 then
      let j := transforms.length - i - 1
      match swapTransforms transforms i j with
      | some ts => reverseLoop fuel (i + 1) ts
      | none => .error .indexOutOfRange
    else .ok transforms

/-- The reversal of lines 238-242, run with fuel for every iteration the loop
can make. -/
def reverseTransforms (transforms : List Transforms) : Except Halt (List Transforms) :=
  reverseLoop (transforms.length / 2 + 1) 0 transforms

/-- Variables of the selection loop: `res`, `parentRes`, and for each channel
the value a goroutine is waiting to send on it, if any. -/
structure LoopState where
  res : Option Response
  parentRes : Option Response
  resChan : Option Response
  parentChan : Option Response
  deriving DecidableEq, Repr

/-- How the selection loop is left: a `return` in the arm `via`, or
`break resLoop`. -/
inductive LoopExit where
  | returned (via : Arm) (r : Response)
  | broke (res : Response)
  deriving DecidableEq, Repr

/-- The loop `resLoop` of `handleGET` (lines 192-225) under a schedule. -/
def resLoop (obj : FileObject) (parentObj : Option FileObject) :
    List Arm → LoopState → World → Except Halt (LoopExit × LoopState × World)
  | [], _, _ => .error .scheduleExhausted
  | .ctxDone :: _, s, w =>
    let (r, w) := NewNoContent 499 w
    .ok (.returned .ctxDone r, s, w)
  | .resChan :: rest, s, w =>
    match s.resChan with
    | none => resLoop obj parentObj rest s w
    | some res =>
      let s := { s with res := some res, resChan := none }
      if obj.CheckParent && parentObj.isSome &&
          (match s.parentRes with
            | none => true
            | some parentRes => parentRes.StatusCode == 0) then
        resLoop obj parentObj rest { s with resChan := some res } w
      else if res.StatusCode = 200 then
        if obj.CheckParent && parentObj.isSome then
          match s.parentRes with
          | none => .error .nilParentRes
          | some _ => .ok (.returned .resChan res, s, w)
        else .ok (.returned .resChan res, s, w)
      else if res.StatusCode = 404 then .ok (.broke res, s, w)
      else .ok (.returned .resChan res, s, w)
  | .parentChan :: rest, s, w =>
    match s.parentChan with
    | none => resLoop obj parentObj rest s w
    | some parentRes =>
      let s := { s with parentRes := some parentRes, parentChan := none }
      if parentRes.StatusCode = 404 then .ok (.returned .parentChan parentRes, s, w)
      else resLoop obj parentObj rest s w
  | .dflt :: rest, s, w => resLoop obj parentObj rest s w

/-- State at the entry of the selection loop (lines 178-190): the goroutine
for `storage.Get(obj)` is started, and the one for `storage.Head(parentObj)`
when there is a root parent and `CheckParent` is set. -/
def loopStart (env : Env) (obj : FileObject) (parentObj : Option FileObject) : LoopState :=
  { res := none
    parentRes := none
    resChan := some (env.storageGet obj)
    parentChan := match parentObj with
      | some p => if obj.CheckParent then some (env.storageHead p) else none
      | none => none }

/-- The parent response the gate reads (lines 228-230): with `CheckParent`
unset it is fetched by `storage.Head`, else it is the one of the loop. -/
def gateParentRes (env : Env) (obj : FileObject) (p : FileObject)
    (parentRes : Option Response) : Option Response :=
  if !obj.CheckParent then some (env.storageHead p) else parentRes

/-- The transform gate of `handleGET` after the loop (lines 227-252). -/
def transformStep (env : Env) (obj : FileObject) (parentObj : Option FileObject)
    (transforms : List Transforms) (res : Response) (parentRes : Option Response)
    (w : World) : Except Halt (Response × World) :=
  match parentObj with
  | none => .ok (res, w)
  | some p =>
    if obj.HasTransform then
      match gateParentRes env obj p parentRes with
      | none => .error .nilParentRes
      | some parentRes =>
        if parentRes.StatusCode = 200 &&
            stringsContains (headerGet parentRes.Headers HeaderContentType) "image/" then
          let parentRes := env.storageGet p
          match reverseTransforms transforms with
          | .ok transforms => .ok (processImage env obj parentRes transforms w)
          | .error e => .error e
        else .ok (res, w)
    else .ok (res, w)

/-- Lines 159-252 of `handleGET`: the walk, the prefetch, the selection loop
and the transform gate. -/
def fetchObject (env : Env) (sched : List Arm) (obj : FileObject) (w : World) :
    Except Halt (Response × World) :=
  let (transforms, parentObj) := walk obj [] none
  match resLoop obj parentObj sched (loopStart env obj parentObj) w with
  | .error e => .error e
  | .ok (.returned _ r, _, w) => .ok (r, w)
  | .ok (.broke res, s, w) => transformStep env obj parentObj transforms res s.parentRes w

/-- The function `handleGET` (lines 145-253). `sched` is the schedule of the
selection loop. A nil pointer stored in the cache halts the run at the call of
`Copy` on it; a failed `Copy` falls through to the fetch. -/
def handleGET (env : Env) (sched : List Arm) (req : Request) (obj : FileObject) (w : World) :
    Except Halt (Response × World) :=
  if obj.Key = "" then .ok (handleS3Get env req obj w)
  else
    match cacheGet obj.Key w with
    | (none, w) => fetchObject env sched obj w
    | (some none, _) => .error .nilCacheValue
    | (some (some res), w) =>
      match Copy env res w with
      | (some resCp, w) => .ok (resCp, w)
      | (none, w) => fetchObject env sched obj w

/-! ## `collapseGET`, `handlePUT` and `process` -/

/-- The wait loop of `collapseGET` (lines 119-141) under a schedule. The
pointer returned from the cache probe is the stored one. When the stored
pointer is nil the code returns it to its caller without dereferencing it; the
embedding, whose responses are never nil, ends the run there with
`Halt.nilCacheValue`. -/
def waitLoop (env : Env) (sched : List Arm) (req : Request) (obj : FileObject) :
    List WaitArm → World → Except Halt (Response × World)
  | [], _ => .error .scheduleExhausted
  | .ctxDone :: _, w =>
    .ok (NewNoContent 499 { w with cancels := w.cancels + 1 })
  | .delivered res :: _, w => .ok (res, w)
  | .closed :: _, w => handleGET env sched req obj w
  | .timer :: _, w =>
    .ok (NewString 504 "timeout" { w with cancels := w.cancels + 1 })
  | .dflt :: rest, w =>
    match cacheGet obj.Key w with
    | (some cacheValue, w) =>
      match cacheValue with
      | some res => .ok (res, { w with cancels := w.cancels + 1 })
      | none => .error .nilCacheValue
    | (none, w) => waitLoop env sched req obj rest w

/-- The function `collapseGET` (lines 106-143). `sched` is the schedule of the
selection loop of `handleGET`, `wsched` the one of the wait loop. -/
def collapseGET (env : Env) (sched : List Arm) (wsched : List WaitArm) (req : Request)
    (obj : FileObject) (w : World) : Except Halt (Response × World) :=
  if env.lockAcquired obj.Key then
    match handleGET env sched req obj w with
    | .ok (res, w) => .ok (res, { w with notifies := w.notifies ++ [(obj.Key, res)] })
    | .error e => .error e
  else waitLoop env sched req obj wsched w

/-- The function `handlePUT` (lines 102-104). -/
def handlePUT (env : Env) (req : Request) (obj : FileObject) : Response :=
  env.storageSet obj req.Header req.ContentLength req.Body

/-- The function `process` (lines 85-100). When a waiter is served the cached
object itself, the code rewrites the headers of that object in place; the
embedding returns the rewritten value and leaves the cache entry as stored. -/
def process (env : Env) (sched : List Arm) (wsched : List WaitArm) (req : Request)
    (obj : FileObject) (w : World) : Except Halt (Response × World) :=
  if req.Method = "GET" ∨ req.Method = "HEAD" then
    if obj.HasTransform then
      match collapseGET env sched wsched req obj w with
      | .ok (res, w) => .ok (updateHeaders env.Headers res, w)
      | .error e => .error e
    else
      match handleGET env sched req obj w with
      | .ok (res, w) => .ok (updateHeaders env.Headers res, w)
      | .error e => .error e
  else if req.Method = "PUT" then
    .ok (handlePUT env req obj, w)
  else
    .ok (NewError 405 "method not allowed" w)

/-! ## Concurrent requests for one key -/

/-- One of the concurrent requests for a key: whether `lock.Lock` granted it
the key, the schedule of its selection loop and the schedule of its wait
loop. -/
structure Run where
  locked : Bool
  sched : List Arm
  wsched : List WaitArm
  deriving DecidableEq, Repr

/-- The requests of a group, all for the same key and object, each processed by
`collapseGET` on the world the earlier ones left: the order of the list is the
order in which the requests take effect on the cache and the logs. The result
is the list of their responses. -/
def collapseRuns (env : Env) (req : Request) (obj : FileObject) :
    List Run → World → Except Halt (List Response × World)
  | [], w => .ok ([], w)
  | run :: rest, w =>
    match collapseGET { env with lockAcquired := fun _ => run.locked } run.sched run.wsched
        req obj w with
    | .error e => .error e
    | .ok (res, w) =>
      match collapseRuns env req obj rest w with
      | .error e => .error e
      | .ok (rs, w) => .ok (res :: rs, w)

/-! ## The parent chain, in the words of the specification -/

/-- The parent chain `n0 -> n1 -> ... -> nk` of an object, the object first
and the node with no parent last. -/
def chain : FileObject → List FileObject
  | .root d => [.root d]
  | .derived d p => .derived d p :: chain p

/-- The last node of the parent chain, the first one with no parent. -/
def rootOf : FileObject → FileObject
  | .root d => .root d
  | .derived _ p => rootOf p

/-- The `Transforms` of the nodes `n0 .. n(k-1)` that have `has_transform`, in
the order of the walk (the requested object first). -/
def leafToParent (obj : FileObject) : List Transforms :=
  (((chain obj).dropLast).filter (fun n => n.HasTransform)).map (fun n => n.Transforms)

/-- The same entries in parent-to-leaf order: the entry of the node nearest
the root first, the entry of the requested object last. -/
def parentToLeaf (obj : FileObject) : List Transforms :=
  (((chain obj).dropLast).reverse.filter (fun n => n.HasTransform)).map (fun n => n.Transforms)

/-! ## Sample inputs -/

/-- A source image in bucket `media`. -/
def sampleRoot : FileObject := .root ⟨"cat.jpg", "media", false, ⟨[]⟩, false⟩

/-- A derivative of `sampleRoot`; `check` is its `CheckParent`. -/
def sampleThumb (check : Bool) : FileObject :=
  .derived ⟨"cat.jpg@200x200", "media", true, ⟨["resize 200 200"]⟩, check⟩ sampleRoot

/-- A derivative of `sampleThumb`: a chain of two transformed nodes above the
source. -/
def sampleGray (check : Bool) : FileObject :=
  .derived ⟨"cat.jpg@200x200@gray", "media", true, ⟨["grayscale"]⟩, check⟩ (sampleThumb check)

/-- The response of `storage.Get` for the source image. -/
def sampleSource (contentType : String) : Response :=
  ⟨2, 200, [("Content-Type", contentType)], 4, "JPEG"⟩

/-- The response of the sample image engine. -/
def sampleDerived : Response := ⟨6, 200, [("Content-Type", "image/jpeg")], 5, "THUMB"⟩

/-- Collaborators for the sample runs: `storage.Get` answers `objStatus` for a
derivative and the source image for a root, `storage.Head` answers
`parentStatus` with the content type, the throttler answers `take`, the engine
succeeds, copies succeed and the lock is held by another request. -/
def sampleEnv (objStatus parentStatus : Int) (contentType : String) (take : Bool) : Env :=
  { Headers := [⟨[404], [("Cache-Control", "no-cache")]⟩, ⟨[404, 200], [("X-Later", "1")]⟩]
    storageGet := fun o => if o.HasParent then ⟨1, objStatus, [], 0, ""⟩ else sampleSource contentType
    storageHead := fun _ => ⟨3, parentStatus, [("Content-Type", contentType)], 4, ""⟩
    storageSet := fun _ _ _ _ => ⟨4, 200, [], 0, ""⟩
    storageList := fun _ _ _ _ _ => ⟨5, 200, [], 0, ""⟩
    atoi := fun _ => 0
    throttlerTake := take
    engineProcess := fun _ _ _ => .ok sampleDerived
    copyFails := fun _ => false
    lockAcquired := fun _ => false }

/-- The sample collaborators with an engine that reports an error. -/
def failingEngineEnv : Env :=
  { sampleEnv 404 200 "image/jpeg" true with engineProcess := fun _ _ _ => .error "decode" }

/-- A world with an empty derivative cache and empty logs. -/
def sampleWorld : World := ⟨100, [], [], 0, 0, [], [], [], 0, []⟩

/-- A response stored in the derivative cache. -/
def sampleCached : Response := ⟨7, 200, [("Content-Type", "image/jpeg")], 5, "THUMB"⟩

/-- A world whose derivative cache holds `sampleCached` for the key of
`sampleThumb`. -/
def cachedWorld : World := { sampleWorld with cache := [("cat.jpg@200x200", some sampleCached)] }

/-- A request with the given method and nothing else. -/
def sampleReq (method : String) : Request := ⟨method, [], 0, "", []⟩

/-! ## Theorems -/

theorem chain_ne_nil (o : FileObject) : chain o ≠ [] := by
  cases o <;> simp [chain]

theorem walk_transforms (o : FileObject) (ts : List Transforms) (p : Option FileObject) :
    (walk o ts p).1 = ts ++ leafToParent o := by
  induction o generalizing ts p with
  | root d => simp [walk, leafToParent, chain]
  | derived d q ih =>
    have hq : leafToParent (.derived d q) =
        (if (FileObject.derived d q).HasTransform then [(FileObject.derived d q).Transforms] else [])
          ++ leafToParent q := by
      simp only [leafToParent, chain, List.dropLast_cons_of_ne_nil (chain_ne_nil q), List.filter_cons]
      split <;> simp
    rw [walk, ih, hq]
    split <;> simp

theorem walk_parentObj (o : FileObject) (ts : List Transforms) (p : Option FileObject) :
    (walk o ts p).2 = if o.HasParent then some (rootOf o) else p := by
  induction o generalizing ts p with
  | root d => simp [walk, FileObject.HasParent, FileObject.Parent]
  | derived d q ih =>
    rw [walk, ih]
    cases q <;> simp [FileObject.HasParent, FileObject.Parent, rootOf]

theorem parentToLeaf_eq (obj : FileObject) : parentToLeaf obj = (leafToParent obj).reverse := by
  simp [parentToLeaf, leafToParent, List.filter_reverse, List.map_reverse]

theorem swapTransforms_eq (ts : List Transforms) (i j : Nat) (hi : i < ts.length)
    (hj : j < ts.length) :
    swapTransforms ts i j = some ((ts.set i (ts.get ⟨j, hj⟩)).set j (ts.get ⟨i, hi⟩)) := by
  simp [swapTransforms, List.getElem?_eq_getElem hi, List.getElem?_eq_getElem hj]

/-- Invariant of the swap loop: before iteration `i` the first `i` and the last
`i` entries are those of the reversed list, the entries between are untouched. -/
theorem reverseLoop_inv (orig : List Transforms) :
    ∀ (fuel i : Nat) (ts : List Transforms), ts.length = orig.length →
      i ≤ orig.length / 2 → orig.length / 2 - i < fuel →
      (∀ k, k < orig.length →
        ts[k]? = if k < i ∨ orig.length - i ≤ k then orig[orig.length - 1 - k]? else orig[k]?) →
      reverseLoop fuel i ts = .ok orig.reverse := by
  intro fuel
  induction fuel with
  | zero => intro i ts _ _ hf; omega
  | succ fuel ih =>
    intro i ts hlen hi hf hinv
    rw [reverseLoop]
    by_cases hlt : i < ts.length / 2
    · have hi1 : i < ts.length := by omega
      have hj1 : ts.length - i - 1 < ts.length := by omega
      rw [if_pos hlt]
      simp only [swapTransforms_eq ts i (ts.length - i - 1) hi1 hj1]
      apply ih
      · simp [hlen]
      · omega
      · omega
      · intro k hk
        have hki := hinv i (by omega)
        have hkj := hinv (ts.length - i - 1) (by omega)
        have hkk := hinv k hk
        rw [List.getElem?_eq_getElem hi1] at hki
        rw [List.getElem?_eq_getElem hj1] at hkj
        simp only [List.get_eq_getElem, List.getElem?_set, List.length_set]
        by_cases h1 : ts.length - i - 1 = k
        · subst h1
          rw [if_pos rfl, if_pos hj1, hki]
          rw [if_neg (by omega), if_pos (by omega)]
          congr 1
          omega
        · rw [if_neg h1]
          by_cases h2 : i = k
          · subst h2
            rw [if_pos rfl, if_pos hi1, hkj]
            rw [if_neg (by omega), if_pos (by omega)]
            congr 1
            omega
          · rw [if_neg h2, hkk]
            by_cases h3 : k < i ∨ orig.length - i ≤ k
            · rw [if_pos h3, if_pos (by omega)]
            · rw [if_neg h3, if_neg (by omega)]
    · rw [if_neg hlt]
      congr 1
      apply List.ext_getElem?
      intro k
      by_cases hk : k < orig.length
      · rw [hinv k hk, List.getElem?_reverse hk]
        by_cases h3 : k < i ∨ orig.length - i ≤ k
        · rw [if_pos h3]
        · rw [if_neg h3]
          congr 1
          omega
      · rw [List.getElem?_eq_none (by omega), List.getElem?_eq_none (by simp; omega)]

theorem reverseTransforms_eq (ts : List Transforms) : reverseTransforms ts = .ok ts.reverse := by
  apply reverseLoop_inv ts _ 0 ts rfl (Nat.zero_le _) (by omega)
  intro k hk
  rw [if_neg (by omega)]

/-! ### Header maps -/

theorem lookup_headerSet_self (k v : String) (l : Header) :
    (headerSet k v l).lookup k = some v := by
  induction l with
  | nil => simp [headerSet, List.lookup]
  | cons e t ih =>
    obtain ⟨k1, v1⟩ := e
    by_cases h : k1 = k
    · simp [headerSet, h, List.lookup]
    · have h2 : (k == k1) = false := by simpa using fun h3 => h h3.symm
      simp [headerSet, h, List.lookup, h2, ih]

theorem lookup_headerSet_ne (k v k2 : String) (l : Header) (hne : k2 ≠ k) :
    (headerSet k v l).lookup k2 = l.lookup k2 := by
  induction l with
  | nil =>
    have h2 : (k2 == k) = false := by simpa using hne
    simp [headerSet, List.lookup, h2]
  | cons e t ih =>
    obtain ⟨k1, v1⟩ := e
    by_cases h : k1 = k
    · subst h
      have h2 : (k2 == k1) = false := by simpa using hne
      simp [headerSet, List.lookup, h2]
    · simp only [headerSet, h, if_false, List.lookup]
      rw [ih]

theorem headerSet_overwrite (k v v2 : String) (l : Header) :
    headerSet k v (headerSet k v2 l) = headerSet k v l := by
  induction l with
  | nil => simp [headerSet]
  | cons e t ih =>
    obtain ⟨k1, v1⟩ := e
    by_cases h : k1 = k
    · simp [headerSet, h]
    · simp [headerSet, h, ih]

theorem headerSet_comm (k v k1 v1 : String) (l : Header) (hne : k ≠ k1)
    (hp : l.lookup k ≠ none ∨ l.lookup k1 ≠ none) :
    headerSet k1 v1 (headerSet k v l) = headerSet k v (headerSet k1 v1 l) := by
  induction l with
  | nil => simp [List.lookup] at hp
  | cons e t ih =>
    obtain ⟨a, b⟩ := e
    by_cases ha : a = k
    · subst ha
      simp [headerSet, hne]
    · by_cases hb : a = k1
      · subst hb
        simp [headerSet, ha, Ne.symm hne]
      · have h1 : (k == a) = false := by simpa using fun h3 => ha h3.symm
        have h2 : (k1 == a) = false := by simpa using fun h3 => hb h3.symm
        simp only [List.lookup, h1, h2] at hp
        simp [headerSet, ha, hb, ih hp]

theorem overlay_append (vs : List (String × String)) (k v : String) (l : Header) :
    overlay (vs ++ [(k, v)]) l = headerSet k v (overlay vs l) := by
  induction vs generalizing l with
  | nil => simp [overlay]
  | cons e t ih =>
    obtain ⟨a, b⟩ := e
    simp [overlay, ih]

theorem lookup_overlay_frame (vs : List (String × String)) (l : Header) (h : String)
    (hn : h ∉ vs.map Prod.fst) : (overlay vs l).lookup h = l.lookup h := by
  induction vs generalizing l with
  | nil => simp [overlay]
  | cons e t ih =>
    obtain ⟨a, b⟩ := e
    simp only [List.map_cons, List.mem_cons, not_or] at hn
    rw [overlay, ih _ hn.2, lookup_headerSet_ne _ _ _ _ hn.1]

theorem lookup_overlay_mem (vs : List (String × String)) (l : Header) (h v : String)
    (hnd : (vs.map Prod.fst).Nodup) (hm : (h, v) ∈ vs) : (overlay vs l).lookup h = some v := by
  induction vs generalizing l with
  | nil => simp at hm
  | cons e t ih =>
    obtain ⟨a, b⟩ := e
    simp only [List.map_cons, List.nodup_cons] at hnd
    rw [overlay]
    rcases List.mem_cons.1 hm with heq | hin
    · obtain ⟨rfl, rfl⟩ := Prod.mk.inj heq
      rw [lookup_overlay_frame _ _ _ hnd.1, lookup_headerSet_self]
    · exact ih _ hnd.2 hin

theorem lookup_overlay_present (vs : List (String × String)) (l : Header) (k : String)
    (hp : l.lookup k ≠ none ∨ k ∈ vs.map Prod.fst) : (overlay vs l).lookup k ≠ none := by
  induction vs generalizing l with
  | nil => simpa [overlay] using hp
  | cons e t ih =>
    obtain ⟨a, b⟩ := e
    rw [overlay]
    apply ih
    by_cases hk : k = a
    · subst hk
      left
      simp [lookup_headerSet_self]
    · rw [lookup_headerSet_ne _ _ _ _ hk]
      rcases hp with hp | hp
      · exact Or.inl hp
      · right
        simpa [hk] using hp

/-- A later `Set` of the same name absorbs an earlier one. -/
theorem overlay_absorb (vs : List (String × String)) (l : Header) (k v : String)
    (hk : k ∈ vs.map Prod.fst) (hp : l.lookup k ≠ none) :
    overlay vs (headerSet k v l) = overlay vs l := by
  induction vs generalizing l with
  | nil => simp at hk
  | cons e t ih =>
    obtain ⟨a, b⟩ := e
    rw [overlay, overlay]
    by_cases ha : a = k
    · subst ha
      rw [headerSet_overwrite]
    · have hk2 : k ∈ t.map Prod.fst := by
        simpa [Ne.symm ha] using hk
      rw [headerSet_comm k v a b l (Ne.symm ha) (Or.inl hp)]
      apply ih _ hk2
      rw [lookup_headerSet_ne _ _ _ _ (Ne.symm ha)]
      exact hp

/-- A `Set` of a name the rule does not mention commutes with the rule, once
every name of the rule is present. -/
theorem overlay_comm (vs : List (String × String)) (l : Header) (k v : String)
    (hk : k ∉ vs.map Prod.fst) (hp : ∀ a ∈ vs.map Prod.fst, l.lookup a ≠ none) :
    overlay vs (headerSet k v l) = headerSet k v (overlay vs l) := by
  induction vs generalizing l with
  | nil => simp [overlay]
  | cons e t ih =>
    obtain ⟨a, b⟩ := e
    simp only [List.map_cons, List.mem_cons, not_or] at hk
    rw [overlay, overlay]
    have hpa : l.lookup a ≠ none := hp a (by simp)
    rw [headerSet_comm k v a b l hk.1 (Or.inr hpa)]
    apply ih _ hk.2
    intro c hc
    by_cases hca : c = a
    · subst hca
      simp [lookup_headerSet_self]
    · rw [lookup_headerSet_ne _ _ _ _ hca]
      exact hp c (by simp [hc])

theorem overlay_idem (vs : List (String × String)) (l : Header) :
    overlay vs (overlay vs l) = overlay vs l := by
  induction vs using List.reverseRecOn generalizing l with
  | nil => simp [overlay]
  | append_singleton t e ih =>
    obtain ⟨k, v⟩ := e
    rw [overlay_append, overlay_append]
    by_cases hk : k ∈ t.map Prod.fst
    · rw [overlay_absorb t _ k v hk (lookup_overlay_present t l k (Or.inr hk)), ih]
    · rw [overlay_comm t _ k v hk (fun a ha => lookup_overlay_present t l a (Or.inr ha)), ih,
        headerSet_overwrite]

/-- The header map a rule leaves does not depend on the order in which the
pairs of its `values` map are visited. -/
theorem lookup_overlay_perm (vs vs2 : List (String × String)) (l : Header) (h : String)
    (hnd : (vs.map Prod.fst).Nodup) (hp : vs.Perm vs2) :
    (overlay vs l).lookup h = (overlay vs2 l).lookup h := by
  have hnd2 : (vs2.map Prod.fst).Nodup := ((hp.map Prod.fst).nodup_iff).1 hnd
  by_cases hk : h ∈ vs.map Prod.fst
  · obtain ⟨⟨a, b⟩, hm, rfl⟩ := List.mem_map.1 hk
    rw [lookup_overlay_mem vs l a b hnd hm, lookup_overlay_mem vs2 l a b hnd2 (hp.subset hm)]
  · have hk2 : h ∉ vs2.map Prod.fst := fun hc => hk ((hp.map Prod.fst).symm.subset hc)
    rw [lookup_overlay_frame vs l h hk, lookup_overlay_frame vs2 l h hk2]

theorem setValues_eq (vs : List (String × String)) (res : Response) :
    setValues vs res = { res with Headers := overlay vs res.Headers } := by
  induction vs generalizing res with
  | nil => simp [setValues, overlay]
  | cons e t ih =>
    obtain ⟨a, b⟩ := e
    simp [setValues, overlay, ih]

theorem rangeStatusCodes_eq (vs : List (String × String)) (res : Response) (codes : List Int) :
    rangeStatusCodes vs res codes =
      if res.StatusCode ∈ codes then some (setValues vs res) else none := by
  induction codes with
  | nil => simp [rangeStatusCodes]
  | cons c t ih =>
    by_cases hc : c = res.StatusCode
    · simp [rangeStatusCodes, hc]
    · have hc2 : ¬ res.StatusCode = c := fun h => hc h.symm
      simp [rangeStatusCodes, hc, hc2, ih]

theorem updateHeaders_eq (headers : List HeaderYaml) (res : Response) :
    updateHeaders headers res =
      match firstRule headers res.StatusCode with
      | some rule => setValues rule.Values res
      | none => res := by
  induction headers with
  | nil => simp [updateHeaders, firstRule]
  | cons p t ih =>
    rw [updateHeaders, rangeStatusCodes_eq]
    by_cases hm : res.StatusCode ∈ p.StatusCodes
    · simp [firstRule, hm]
    · simp only [firstRule, hm, if_false, List.find?_cons, decide_False]
      exact ih

/-! ### `processImage` and the selection loop -/

theorem processImage_imageCalls (env : Env) (obj : FileObject) (parent : Response)
    (ts : List Transforms) (w : World) :
    (processImage env obj parent ts w).2.imageCalls = w.imageCalls ++ [⟨obj, parent, ts⟩] := by
  unfold processImage
  cases env.throttlerTake
  · simp [NewNoContent]
  · cases hE : env.engineProcess obj parent ts with
    | error err => simp [hE, NewError]
    | ok res =>
      cases hC : env.copyFails res <;> simp [hE, hC, Copy, cacheSet]

theorem resLoop_world (obj : FileObject) (po : Option FileObject) (sched : List Arm)
    (s : LoopState) (w : World) (e : LoopExit) (s2 : LoopState) (w2 : World)
    (h : resLoop obj po sched s w = .ok (e, s2, w2)) :
    w2 = w ∨ ((∃ r, e = .returned .ctxDone r) ∧ w2 = { w with nextAddr := w.nextAddr + 1 }) := by
  induction sched generalizing s with
  | nil => simp [resLoop] at h
  | cons a rest ih =>
    cases a with
    | ctxDone =>
      simp only [resLoop, NewNoContent, Except.ok.injEq, Prod.mk.injEq] at h
      obtain ⟨h1, -, h3⟩ := h
      exact Or.inr ⟨⟨_, h1.symm⟩, h3.symm⟩
    | resChan =>
      rw [resLoop] at h
      dsimp only at h
      repeat' split at h
      all_goals first
        | exact ih _ h
        | (simp only [Except.ok.injEq, Prod.mk.injEq] at h; exact Or.inl h.2.2.symm)
        | simp at h
    | parentChan =>
      rw [resLoop] at h
      dsimp only at h
      repeat' split at h
      all_goals first
        | exact ih _ h
        | (simp only [Except.ok.injEq, Prod.mk.injEq] at h; exact Or.inl h.2.2.symm)
    | dflt =>
      rw [resLoop] at h
      exact ih _ h

/-- Leaving the loop through the arm of the object GET, with `CheckParent` set
and a root parent, needs a parent response with a status that is not 0. -/
theorem resLoop_obj_exit (obj : FileObject) (po : Option FileObject) (sched : List Arm)
    (s : LoopState) (w : World) (e : LoopExit) (s2 : LoopState) (w2 : World)
    (h : resLoop obj po sched s w = .ok (e, s2, w2))
    (hc : obj.CheckParent = true) (hp : po.isSome = true)
    (he : (∃ res, e = .broke res) ∨ (∃ r, e = .returned .resChan r)) :
    ∃ pr, s2.parentRes = some pr ∧ pr.StatusCode ≠ 0 := by
  induction sched generalizing s with
  | nil => simp [resLoop] at h
  | cons a rest ih =>
    cases a with
    | ctxDone =>
      simp only [resLoop, NewNoContent, Except.ok.injEq, Prod.mk.injEq] at h
      rcases he with ⟨r, hr⟩ | ⟨r, hr⟩ <;> rw [hr] at h <;> simp at h
    | resChan =>
      rw [resLoop] at h
      dsimp only at h
      cases hpr : s.parentRes with
      | none =>
        simp only [hpr, hc, hp, Bool.and_self, if_true] at h
        split at h <;> exact ih _ h
      | some pr =>
        by_cases h0 : pr.StatusCode = 0
        · simp only [hpr, hc, hp, h0, Bool.and_self, beq_self_eq_true, if_true] at h
          split at h <;> exact ih _ h
        · have h0b : (pr.StatusCode == 0) = false := by simpa using h0
          simp only [hpr, hc, hp, h0b, Bool.and_self, Bool.and_false, Bool.false_eq_true,
            if_false, if_true] at h
          repeat' split at h
          all_goals first
            | exact ih _ h
            | (simp only [Except.ok.injEq, Prod.mk.injEq] at h
               refine ⟨pr, ?_, h0⟩
               rw [← h.2.1])
    | parentChan =>
      rw [resLoop] at h
      dsimp only at h
      repeat' split at h
      all_goals first
        | exact ih _ h
        | (simp only [Except.ok.injEq, Prod.mk.injEq] at h
           rcases he with ⟨r, hr⟩ | ⟨r, hr⟩ <;> rw [hr] at h <;> simp at h)
    | dflt =>
      rw [resLoop] at h
      exact ih _ h

theorem resLoop_no_nil (obj : FileObject) (po : Option FileObject) (sched : List Arm)
    (s : LoopState) (w : World) : resLoop obj po sched s w ≠ .error .nilParentRes := by
  induction sched generalizing s with
  | nil => simp [resLoop]
  | cons a rest ih =>
    cases a with
    | ctxDone => simp [resLoop, NewNoContent]
    | resChan =>
      rw [resLoop]
      dsimp only
      cases hpr : s.parentRes with
      | none =>
        cases hg : (obj.CheckParent && po.isSome)
        · simp only [hg, Bool.false_and, Bool.false_eq_true, if_false]
          repeat' split
          all_goals first
            | exact ih _
            | simp
        · simp only [hg, Bool.true_and, if_true]
          split <;> exact ih _
      | some pr =>
        repeat' split
        all_goals first
          | exact ih _
          | simp_all
    | parentChan =>
      rw [resLoop]
      dsimp only
      repeat' split
      all_goals first
        | exact ih _
        | simp
    | dflt =>
      rw [resLoop]
      exact ih _

/-! ### `handleGET` -/

theorem transformStep_cases (env : Env) (obj : FileObject) (po : Option FileObject)
    (ts : List Transforms) (res : Response) (pr : Option Response) (w : World)
    (r : Response) (w2 : World) (h : transformStep env obj po ts res pr w = .ok (r, w2)) :
    (r = res ∧ w2 = w) ∨
      ∃ p, po = some p ∧ (r, w2) = processImage env obj (env.storageGet p) ts.reverse w := by
  unfold transformStep at h
  simp only [reverseTransforms_eq] at h
  repeat' split at h
  all_goals first
    | (simp only [Except.ok.injEq, Prod.mk.injEq] at h; exact Or.inl ⟨h.1.symm, h.2.symm⟩)
    | (simp only [Except.ok.injEq] at h; exact Or.inr ⟨_, rfl, h.symm⟩)
    | simp at h

theorem walk_eq (obj : FileObject) :
    walk obj [] none = (leafToParent obj, if obj.HasParent then some (rootOf obj) else none) :=
  Prod.ext (by simpa using walk_transforms obj [] none) (walk_parentObj obj [] none)

/-- A run of lines 159-252 either leaves the logs of the world alone or ends in
the call of `processImage` on the root parent with the parent-to-leaf list. -/
theorem fetchObject_cases (env : Env) (sched : List Arm) (obj : FileObject) (w : World)
    (r : Response) (w2 : World) (h : fetchObject env sched obj w = .ok (r, w2)) :
    (w2 = w ∨ w2 = { w with nextAddr := w.nextAddr + 1 }) ∨
      (r, w2) = processImage env obj (env.storageGet (rootOf obj)) (parentToLeaf obj) w := by
  unfold fetchObject at h
  rw [walk_eq] at h
  dsimp only at h
  split at h
  · simp at h
  · rename_i hl
    simp only [Except.ok.injEq, Prod.mk.injEq] at h
    rcases resLoop_world _ _ _ _ _ _ _ _ hl with h1 | ⟨-, h1⟩
    · left; left; rw [← h.2, h1]
    · left; right; rw [← h.2, h1]
  · rename_i hl
    rcases resLoop_world _ _ _ _ _ _ _ _ hl with h1 | ⟨⟨_, h0⟩, -⟩
    · subst h1
      rcases transformStep_cases _ _ _ _ _ _ _ _ _ h with ⟨-, h2⟩ | ⟨p, hp, h2⟩
      · left; left; exact h2
      · right
        have hp2 : p = rootOf obj := by
          by_cases hh : obj.HasParent = true
          · simpa [hh] using hp.symm
          · simp [hh] at hp
        rw [h2, hp2, parentToLeaf_eq]
    · simp at h0

theorem processImage_engineCalls (env : Env) (obj : FileObject) (parent : Response)
    (ts : List Transforms) (w : World) :
    (processImage env obj parent ts w).2.engineCalls =
      if env.throttlerTake then w.engineCalls ++ [⟨obj, parent, ts⟩] else w.engineCalls := by
  unfold processImage
  cases env.throttlerTake
  · simp [NewNoContent]
  · cases hE : env.engineProcess obj parent ts with
    | error err => simp [hE, NewError]
    | ok res =>
      cases hC : env.copyFails res <;> simp [hE, hC, Copy, cacheSet]

/-- What a run of `handleGET` can do to the world: nothing but a cache probe
and an allocation, or a cache probe followed by one call of `processImage` on
the root parent with the parent-to-leaf list. -/
theorem handleGET_cases (env : Env) (sched : List Arm) (req : Request) (obj : FileObject)
    (w : World) (r : Response) (w2 : World) (h : handleGET env sched req obj w = .ok (r, w2)) :
    (w2.imageCalls = w.imageCalls ∧ w2.engineCalls = w.engineCalls ∧ w2.cache = w.cache) ∨
      (r, w2) = processImage env obj (env.storageGet (rootOf obj)) (parentToLeaf obj)
        (cacheGet obj.Key w).2 := by
  unfold handleGET at h
  split at h
  · left
    simp only [handleS3Get, Except.ok.injEq] at h
    split at h
    · simp only [NewString, Prod.mk.injEq] at h
      rw [← h.2]; exact ⟨rfl, rfl, rfl⟩
    · simp only [Prod.mk.injEq] at h
      rw [← h.2]; exact ⟨rfl, rfl, rfl⟩
  · have key : ∀ w1 : World, w1 = (cacheGet obj.Key w).2 →
        fetchObject env sched obj w1 = .ok (r, w2) →
        (w2.imageCalls = w.imageCalls ∧ w2.engineCalls = w.engineCalls ∧ w2.cache = w.cache) ∨
          (r, w2) = processImage env obj (env.storageGet (rootOf obj)) (parentToLeaf obj)
            (cacheGet obj.Key w).2 := by
      intro w1 hw1 hf
      rcases fetchObject_cases _ _ _ _ _ _ hf with (h1 | h1) | h1
      · left; rw [h1, hw1]; exact ⟨rfl, rfl, rfl⟩
      · left; rw [h1, hw1]; exact ⟨rfl, rfl, rfl⟩
      · right; rw [h1, hw1]
    split at h
    · rename_i hc
      exact key _ (by rw [hc]) h
    · simp at h
    · rename_i _ res1 wc hc
      have h1 : wc = (cacheGet obj.Key w).2 := by rw [hc]
      subst h1
      split at h
      · rename_i hcp
        left
        simp only [Except.ok.injEq, Prod.mk.injEq] at h
        simp only [Copy] at hcp
        split at hcp
        · simp at hcp
        · simp only [Prod.mk.injEq] at hcp
          rw [← h.2, ← hcp.2]
          exact ⟨rfl, rfl, rfl⟩
      · rename_i hcp
        simp only [Copy] at hcp
        split at hcp
        · simp only [Prod.mk.injEq] at hcp
          exact key _ hcp.2.symm h
        · simp at hcp

/-! ### The selection loop under `CheckParent` -/

/-- With `CheckParent` set, a root parent and no parent response yet, a
schedule without cancellation and without the arrival of the parent HEAD never
leaves the loop: every object response is put back on `resChan`. -/
theorem resLoop_waiting (obj : FileObject) (po : Option FileObject) (sched : List Arm)
    (s : LoopState) (w : World) (hc : obj.CheckParent = true) (hp : po.isSome = true)
    (hs : s.parentRes = none) (hctx : Arm.ctxDone ∉ sched) (hpar : Arm.parentChan ∉ sched) :
    resLoop obj po sched s w = .error .scheduleExhausted := by
  induction sched generalizing s with
  | nil => rfl
  | cons a rest ih =>
    simp only [List.mem_cons, not_or] at hctx hpar
    cases a with
    | ctxDone => exact absurd rfl hctx.1
    | parentChan => exact absurd rfl hpar.1
    | dflt =>
      rw [resLoop]
      exact ih s hs hctx.2 hpar.2
    | resChan =>
      rw [resLoop]
      cases hr : s.resChan with
      | none => exact ih s hs hctx.2 hpar.2
      | some res =>
        simp only [hs, hc, hp, Bool.and_self, if_true]
        exact ih _ rfl hctx.2 hpar.2

/-- With `CheckParent` set, a root parent, no parent response yet and a HEAD
response with status 404 on its way, a schedule without cancellation in which
the parent HEAD arrives returns that response, wherever the object response
arrives. -/
theorem resLoop_parent_404 (obj : FileObject) (po : Option FileObject) (sched : List Arm)
    (s : LoopState) (w : World) (pr : Response) (hc : obj.CheckParent = true)
    (hp : po.isSome = true) (hs : s.parentRes = none) (hch : s.parentChan = some pr)
    (h404 : pr.StatusCode = 404) (hctx : Arm.ctxDone ∉ sched) (hpar : Arm.parentChan ∈ sched) :
    ∃ s2, resLoop obj po sched s w = .ok (.returned .parentChan pr, s2, w) := by
  induction sched generalizing s with
  | nil => simp at hpar
  | cons a rest ih =>
    simp only [List.mem_cons, not_or] at hctx
    cases a with
    | ctxDone => exact absurd rfl hctx.1
    | parentChan =>
      rw [resLoop]
      simp only [hch, h404, if_true]
      exact ⟨_, rfl⟩
    | dflt =>
      rw [resLoop]
      exact ih s hs hch hctx.2 (by simpa using hpar)
    | resChan =>
      rw [resLoop]
      cases hr : s.resChan with
      | none => exact ih s hs hch hctx.2 (by simpa using hpar)
      | some res =>
        simp only [hs, hc, hp, Bool.and_self, if_true]
        exact ih _ rfl hch hctx.2 (by simpa using hpar)

/-- The response a `break` leaves in `res` is the one that was sent on
`resChan`, and its status is 404. -/
theorem resLoop_broke (obj : FileObject) (po : Option FileObject) (sched : List Arm)
    (s : LoopState) (w : World) (r0 res : Response) (s2 : LoopState) (w2 : World)
    (hch : ∀ x, s.resChan = some x → x = r0)
    (h : resLoop obj po sched s w = .ok (.broke res, s2, w2)) :
    res = r0 ∧ res.StatusCode = 404 := by
  induction sched generalizing s with
  | nil => simp [resLoop] at h
  | cons a rest ih =>
    cases a with
    | ctxDone => simp [resLoop, NewNoContent] at h
    | dflt =>
      rw [resLoop] at h
      exact ih s hch h
    | parentChan =>
      rw [resLoop] at h
      dsimp only at h
      repeat' split at h
      all_goals first
        | (refine ih _ ?_ h; intro y hy; exact hch y hy)
        | simp at h
    | resChan =>
      rw [resLoop] at h
      cases hr : s.resChan with
      | none =>
        simp only [hr] at h
        exact ih s hch h
      | some x =>
        have hx : x = r0 := hch x hr
        subst hx
        simp only [hr] at h
        repeat' split at h
        all_goals first
          | exact ih _ (by intro y hy; simpa using hy.symm) h
          | (simp only [Except.ok.injEq, Prod.mk.injEq, LoopExit.broke.injEq] at h
             rename_i h404
             exact ⟨h.1.symm, h.1 ▸ h404⟩)
          | simp at h

theorem handleGET_eq_fetchObject (env : Env) (sched : List Arm) (req : Request)
    (obj : FileObject) (w : World) (hkey : obj.Key ≠ "")
    (hmiss : w.cache.lookup obj.Key = none ∨
      ∃ c, w.cache.lookup obj.Key = some (some c) ∧ env.copyFails c = true) :
    handleGET env sched req obj w = fetchObject env sched obj (cacheGet obj.Key w).2 := by
  unfold handleGET
  rw [if_neg hkey]
  rcases hmiss with hm | ⟨c, hm, hcf⟩
  · simp [cacheGet, hm]
  · simp [cacheGet, hm, Copy, hcf]

theorem transformStep_no_nil (env : Env) (obj : FileObject) (po : Option FileObject)
    (ts : List Transforms) (res : Response) (pr : Option Response) (w : World)
    (hpr : obj.CheckParent = true → po.isSome = true → pr ≠ none) :
    transformStep env obj po ts res pr w ≠ .error .nilParentRes := by
  unfold transformStep
  simp only [reverseTransforms_eq]
  cases po with
  | none => simp
  | some p =>
    simp only
    split
    · cases hcp : obj.CheckParent with
      | false =>
        simp only [gateParentRes, hcp, Bool.not_false, if_true]
        split <;> simp
      | true =>
        cases hv : pr with
        | none => exact absurd hv (hpr hcp rfl)
        | some v =>
          simp only [gateParentRes, hcp, Bool.not_true, Bool.false_eq_true, if_false]
          split <;> simp
    · simp

theorem fetchObject_no_nil (env : Env) (sched : List Arm) (obj : FileObject) (w : World) :
    fetchObject env sched obj w ≠ .error .nilParentRes := by
  unfold fetchObject
  rw [walk_eq]
  dsimp only
  split
  · rename_i e hl
    intro he
    simp only [Except.error.injEq] at he
    subst he
    exact resLoop_no_nil _ _ _ _ _ hl
  · simp
  · rename_i hl
    apply transformStep_no_nil
    intro hc hp
    obtain ⟨pr, hpr, -⟩ := resLoop_obj_exit _ _ _ _ _ _ _ _ hl hc hp (Or.inl ⟨_, rfl⟩)
    rw [hpr]
    simp

theorem transformStep_eq (env : Env) (obj : FileObject) (p : FileObject)
    (ts : List Transforms) (res : Response) (pr : Option Response) (g : Response) (w : World)
    (hg : gateParentRes env obj p pr = some g) :
    transformStep env obj (some p) ts res pr w =
      if obj.HasTransform = true ∧ g.StatusCode = 200 ∧
          stringsContains (headerGet g.Headers HeaderContentType) "image/" = true then
        .ok (processImage env obj (env.storageGet p) ts.reverse w)
      else .ok (res, w) := by
  unfold transformStep
  simp only [reverseTransforms_eq, hg]
  by_cases ht : obj.HasTransform = true
  · simp [ht]
  · simp [ht]

/-- After a `break` the gate has a parent response to read whenever there is a
root parent. -/
theorem gateParentRes_some (env : Env) (obj : FileObject) (p : FileObject) (sched : List Arm)
    (s0 : LoopState) (w : World) (res : Response) (s : LoopState) (w1 : World)
    (hloop : resLoop obj (some p) sched s0 w = .ok (.broke res, s, w1)) :
    ∃ g, gateParentRes env obj p s.parentRes = some g := by
  cases hc : obj.CheckParent with
  | false => exact ⟨env.storageHead p, by simp [gateParentRes, hc]⟩
  | true =>
    obtain ⟨pr, hpr, -⟩ := resLoop_obj_exit _ _ _ _ _ _ _ _ hloop hc rfl (Or.inl ⟨_, rfl⟩)
    exact ⟨pr, by simp [gateParentRes, hc, hpr]⟩

/-! ### The two cache probes -/

/-- The probe at the start of `handleGET` serves a copy: a response with the
contents of the stored one at a newly allocated address. -/
theorem handleGET_cache_hit (env : Env) (sched : List Arm) (req : Request) (obj : FileObject)
    (w : World) (stored : Response) (hkey : obj.Key ≠ "")
    (hhit : w.cache.lookup obj.Key = some (some stored)) (hcopy : env.copyFails stored = false) :
    handleGET env sched req obj w =
      .ok ({ stored with addr := w.nextAddr },
        { w with cacheGets := w.cacheGets ++ [obj.Key], nextAddr := w.nextAddr + 1 }) := by
  simp [handleGET, hkey, cacheGet, hhit, Copy, hcopy]

/-- The probe in the wait loop of `collapseGET` serves the stored response as
it is, and allocates nothing. -/
theorem collapseGET_cache_hit (env : Env) (sched : List Arm) (rest : List WaitArm)
    (req : Request) (obj : FileObject) (w : World) (stored : Response)
    (hlock : env.lockAcquired obj.Key = false)
    (hhit : w.cache.lookup obj.Key = some (some stored)) :
    collapseGET env sched (.dflt :: rest) req obj w =
      .ok (stored, { w with cacheGets := w.cacheGets ++ [obj.Key], cancels := w.cancels + 1 }) := by
  simp [collapseGET, hlock, waitLoop, cacheGet, hhit]

/-! ### Properties of the specification -/

/-- C1: a run of `handleGET` calls `processImage`, and so the engine, at most
once, and the transform list it passes is `parentToLeaf obj`: the `Transforms`
of the nodes `n0 .. n(k-1)` of the parent chain that have `has_transform`, the
entry of the node nearest the root first and the entry of the requested object
last. That list is the reverse of the list the walk appended, and the swap
loop reverses a list of every length. -/
theorem handleGET_transform_order (env : Env) (sched : List Arm) (req : Request)
    (obj : FileObject) (w : World) (r : Response) (w2 : World)
    (h : handleGET env sched req obj w = .ok (r, w2)) :
    (w2.imageCalls = w.imageCalls ∨
      w2.imageCalls =
        w.imageCalls ++ [⟨obj, env.storageGet (rootOf obj), parentToLeaf obj⟩]) ∧
    (w2.engineCalls = w.engineCalls ∨
      w2.engineCalls =
        w.engineCalls ++ [⟨obj, env.storageGet (rootOf obj), parentToLeaf obj⟩]) ∧
    (walk obj [] none).1 = leafToParent obj ∧
    parentToLeaf obj = (walk obj [] none).1.reverse ∧
    reverseTransforms (walk obj [] none).1 = .ok (parentToLeaf obj) ∧
    ∀ ts : List Transforms, reverseTransforms ts = .ok ts.reverse := by
  have hw : (walk obj [] none).1 = leafToParent obj := by
    simpa using walk_transforms obj [] none
  refine ⟨?_, ?_, hw, ?_, ?_, reverseTransforms_eq⟩
  · rcases handleGET_cases env sched req obj w r w2 h with h1 | h1
    · exact Or.inl h1.1
    · right
      have h3 := congrArg (fun x => x.2.imageCalls) h1
      simp only at h3
      rw [h3, processImage_imageCalls]
      rfl
  · rcases handleGET_cases env sched req obj w r w2 h with h1 | h1
    · exact Or.inl h1.2.1
    · have h3 := congrArg (fun x => x.2.engineCalls) h1
      simp only at h3
      rw [h3, processImage_engineCalls]
      cases env.throttlerTake
      · left; rfl
      · right; rfl
  · rw [hw, parentToLeaf_eq]
  · rw [hw, reverseTransforms_eq, parentToLeaf_eq]

/-- A run on a chain of two transformed nodes: the walk collects `grayscale`
then `resize`, the engine is handed `resize` then `grayscale`. -/
theorem handleGET_transform_order_witness :
    handleGET (sampleEnv 404 200 "image/jpeg" true) [.resChan] (sampleReq "GET")
        (sampleGray false) sampleWorld =
      .ok (processImage (sampleEnv 404 200 "image/jpeg" true) (sampleGray false)
        (sampleSource "image/jpeg") [⟨["resize 200 200"]⟩, ⟨["grayscale"]⟩]
        (cacheGet "cat.jpg@200x200@gray" sampleWorld).2) ∧
    (walk (sampleGray false) [] none).1 = [⟨["grayscale"]⟩, ⟨["resize 200 200"]⟩] ∧
    reverseTransforms (walk (sampleGray false) [] none).1 =
      .ok (parentToLeaf (sampleGray false)) ∧
    parentToLeaf (sampleGray false) = [⟨["resize 200 200"]⟩, ⟨["grayscale"]⟩] :=
  ⟨rfl, rfl,
    (handleGET_transform_order (sampleEnv 404 200 "image/jpeg" true) [.resChan]
      (sampleReq "GET") (sampleGray false) sampleWorld _ _ rfl).2.2.2.2.1, rfl⟩

/-- C6: `updateHeaders` applies exactly one rule, the first in configuration
order whose `status_codes` contain the status code of the response: every
`(header, value)` pair of that rule is set, a header the rule does not name
keeps its value even when a later rule matches too, and the status code and
the rest of the response are unchanged; when no rule matches the response is
returned unchanged. The `values` of a rule are a map, so its names are
distinct. -/
theorem updateHeaders_first_match (headers : List HeaderYaml) (res : Response)
    (hmap : ∀ p ∈ headers, (p.Values.map Prod.fst).Nodup) :
    ((∀ p ∈ headers, res.StatusCode ∉ p.StatusCodes) → updateHeaders headers res = res) ∧
    ∀ (before : List HeaderYaml) (rule : HeaderYaml) (later : List HeaderYaml),
      headers = before ++ rule :: later →
      (∀ p ∈ before, res.StatusCode ∉ p.StatusCodes) →
      res.StatusCode ∈ rule.StatusCodes →
        updateHeaders headers res = setValues rule.Values res ∧
        (∀ h v, (h, v) ∈ rule.Values →
          (updateHeaders headers res).Headers.lookup h = some v) ∧
        (∀ h, h ∉ rule.Values.map Prod.fst →
          (updateHeaders headers res).Headers.lookup h = res.Headers.lookup h) ∧
        (updateHeaders headers res).StatusCode = res.StatusCode ∧
        (updateHeaders headers res).addr = res.addr ∧
        (updateHeaders headers res).ContentLength = res.ContentLength ∧
        (updateHeaders headers res).body = res.body := by
  constructor
  · intro hno
    rw [updateHeaders_eq]
    have : firstRule headers res.StatusCode = none := by
      simp only [firstRule, List.find?_eq_none, decide_eq_true_eq]
      exact hno
    rw [this]
  · intro before rule later hh hb hr
    have hf : firstRule headers res.StatusCode = some rule := by
      subst hh
      simp only [firstRule]
      rw [List.find?_append]
      have h1 : List.find? (fun p => decide (res.StatusCode ∈ p.StatusCodes)) before = none := by
        simp only [List.find?_eq_none, decide_eq_true_eq]
        exact hb
      simp [h1, hr]
    have hu : updateHeaders headers res = setValues rule.Values res := by
      rw [updateHeaders_eq, hf]
    have hnd : (rule.Values.map Prod.fst).Nodup := hmap rule (by subst hh; simp)
    rw [hu, setValues_eq]
    refine ⟨rfl, ?_, ?_, rfl, rfl, rfl, rfl⟩
    · intro h v hm
      exact lookup_overlay_mem _ _ _ _ hnd hm
    · intro h hn
      exact lookup_overlay_frame _ _ _ hn

/-- A 404 response under two rules that both match 404: the first rule sets
`Cache-Control`, the header of the later rule stays absent. -/
theorem updateHeaders_first_match_witness :
    (∀ p ∈ (sampleEnv 404 200 "image/jpeg" true).Headers, (p.Values.map Prod.fst).Nodup) ∧
    (updateHeaders (sampleEnv 404 200 "image/jpeg" true).Headers
      ⟨1, 404, [], 0, ""⟩).Headers.lookup "Cache-Control" = some "no-cache" ∧
    (updateHeaders (sampleEnv 404 200 "image/jpeg" true).Headers
      ⟨1, 404, [], 0, ""⟩).Headers.lookup "X-Later" = none :=
  ⟨by decide,
    ((updateHeaders_first_match (sampleEnv 404 200 "image/jpeg" true).Headers
      ⟨1, 404, [], 0, ""⟩ (by decide)).2 [] ⟨[404], [("Cache-Control", "no-cache")]⟩
      [⟨[404, 200], [("X-Later", "1")]⟩] rfl (by simp) (by decide)).2.1
      "Cache-Control" "no-cache" (by decide),
    ((updateHeaders_first_match (sampleEnv 404 200 "image/jpeg" true).Headers
      ⟨1, 404, [], 0, ""⟩ (by decide)).2 [] ⟨[404], [("Cache-Control", "no-cache")]⟩
      [⟨[404, 200], [("X-Later", "1")]⟩] rfl (by simp) (by decide)).2.2.1
      "X-Later" (by decide)⟩

/-- C7: `updateHeaders` is idempotent: for every rule list and every response
a second pass returns the response of the first pass, with the same headers
and status code. -/
theorem updateHeaders_idempotent (headers : List HeaderYaml) (res : Response) :
    updateHeaders headers (updateHeaders headers res) = updateHeaders headers res := by
  have hs : (updateHeaders headers res).StatusCode = res.StatusCode := by
    rw [updateHeaders_eq]
    split
    · rw [setValues_eq]
    · rfl
  rw [updateHeaders_eq headers (updateHeaders headers res), hs]
  cases hf : firstRule headers res.StatusCode with
  | none => rfl
  | some rule =>
    simp only
    rw [updateHeaders_eq, hf]
    simp only [setValues_eq, overlay_idem]

/-- C8: when `Take` returns false `processImage` answers 503 and does nothing
else: the engine is not invoked, the derivative cache is not written, no
write-back is started and `Release` is not called. -/
theorem processImage_throttled (env : Env) (obj : FileObject) (parent : Response)
    (transforms : List Transforms) (w : World) (h : env.throttlerTake = false) :
    (processImage env obj parent transforms w).1.StatusCode = 503 ∧
    (processImage env obj parent transforms w).2.takes = w.takes + 1 ∧
    (processImage env obj parent transforms w).2.engineCalls = w.engineCalls ∧
    (processImage env obj parent transforms w).2.cache = w.cache ∧
    (processImage env obj parent transforms w).2.writeBacks = w.writeBacks ∧
    (processImage env obj parent transforms w).2.releases = w.releases := by
  simp [processImage, h, NewNoContent]

/-- A throttled call on the sample derivative. -/
theorem processImage_throttled_witness :
    (sampleEnv 404 200 "image/jpeg" false).throttlerTake = false ∧
    (processImage (sampleEnv 404 200 "image/jpeg" false) (sampleThumb true)
      (sampleSource "image/jpeg") [⟨["resize 200 200"]⟩] sampleWorld).1.StatusCode = 503 ∧
    (processImage (sampleEnv 404 200 "image/jpeg" false) (sampleThumb true)
      (sampleSource "image/jpeg") [⟨["resize 200 200"]⟩] sampleWorld).2.engineCalls = [] :=
  ⟨rfl,
    (processImage_throttled (sampleEnv 404 200 "image/jpeg" false) (sampleThumb true)
      (sampleSource "image/jpeg") [⟨["resize 200 200"]⟩] sampleWorld rfl).1,
    (processImage_throttled (sampleEnv 404 200 "image/jpeg" false) (sampleThumb true)
      (sampleSource "image/jpeg") [⟨["resize 200 200"]⟩] sampleWorld rfl).2.2.1⟩

/-- C9: for a PUT `process` returns exactly the response of `storage.Set` on
the object, the request headers, content length and body; `updateHeaders` is
not applied to it and the world, the derivative cache and the log of its
probes included, is left as it was. -/
theorem process_PUT (env : Env) (sched : List Arm) (wsched : List WaitArm) (req : Request)
    (obj : FileObject) (w : World) (h : req.Method = "PUT") :
    process env sched wsched req obj w =
      .ok (env.storageSet obj req.Header req.ContentLength req.Body, w) := by
  simp [process, handlePUT, h]

/-- A PUT whose `storage.Set` answers 200, under header rules that match 200:
the response comes back without the header of the rule. -/
theorem process_PUT_witness :
    (sampleReq "PUT").Method = "PUT" ∧
    process (sampleEnv 404 200 "image/jpeg" true) [] [] (sampleReq "PUT") (sampleThumb true)
      sampleWorld = .ok (⟨4, 200, [], 0, ""⟩, sampleWorld) :=
  ⟨rfl, process_PUT (sampleEnv 404 200 "image/jpeg" true) [] [] (sampleReq "PUT")
    (sampleThumb true) sampleWorld rfl⟩

/-- C3 (amended): when a run of `handleGET` leaves the selection loop because
the object GET returned 404, `processImage` is performed exactly when the
object has `has_transform`, a root parent exists, the parent response has
status 200 and the parent `Content-Type` value contains `image/`; otherwise no
transformation is performed and the object GET response is returned. -/
theorem handleGET_transform_gate (env : Env) (sched : List Arm) (req : Request)
    (obj : FileObject) (w : World) (res : Response) (s : LoopState) (w1 : World)
    (hkey : obj.Key ≠ "")
    (hmiss : w.cache.lookup obj.Key = none ∨
      ∃ c, w.cache.lookup obj.Key = some (some c) ∧ env.copyFails c = true)
    (hloop : resLoop obj (walk obj [] none).2 sched
      (loopStart env obj (walk obj [] none).2) (cacheGet obj.Key w).2 = .ok (.broke res, s, w1)) :
    res = env.storageGet obj ∧ res.StatusCode = 404 ∧
    ((obj.HasTransform = true ∧ obj.HasParent = true ∧
        ∃ pr, gateParentRes env obj (rootOf obj) s.parentRes = some pr ∧ pr.StatusCode = 200 ∧
          stringsContains (headerGet pr.Headers HeaderContentType) "image/" = true) →
      handleGET env sched req obj w =
        .ok (processImage env obj (env.storageGet (rootOf obj)) (parentToLeaf obj) w1)) ∧
    (¬ (obj.HasTransform = true ∧ obj.HasParent = true ∧
        ∃ pr, gateParentRes env obj (rootOf obj) s.parentRes = some pr ∧ pr.StatusCode = 200 ∧
          stringsContains (headerGet pr.Headers HeaderContentType) "image/" = true) →
      handleGET env sched req obj w = .ok (res, w1) ∧ w1.imageCalls = w.imageCalls) := by
  have hres := resLoop_broke _ _ _ _ _ (env.storageGet obj) _ _ _
    (by intro x hx; simpa [loopStart] using hx.symm) hloop
  have hw1 : w1 = (cacheGet obj.Key w).2 := by
    rcases resLoop_world _ _ _ _ _ _ _ _ hloop with h1 | ⟨⟨_, h0⟩, -⟩
    · exact h1
    · simp at h0
  have hfetch : handleGET env sched req obj w =
      transformStep env obj (walk obj [] none).2 (walk obj [] none).1 res s.parentRes w1 := by
    rw [handleGET_eq_fetchObject env sched req obj w hkey hmiss]
    unfold fetchObject
    generalize walk obj [] none = wk at hloop ⊢
    obtain ⟨ts, po⟩ := wk
    simp only at hloop ⊢
    rw [hloop]
  rw [walk_eq] at hfetch hloop
  simp only at hfetch hloop
  refine ⟨hres.1, hres.2, ?_, ?_⟩
  · rintro ⟨ht, hp, pr, hg, h200, hct⟩
    rw [hfetch, if_pos hp, transformStep_eq env obj _ _ _ _ pr _ hg, if_pos ⟨ht, h200, hct⟩,
      parentToLeaf_eq]
  · intro hn
    refine ⟨?_, by rw [hw1]; rfl⟩
    rw [hfetch]
    by_cases hp : obj.HasParent = true
    · rw [if_pos hp] at hloop ⊢
      obtain ⟨g, hg⟩ := gateParentRes_some env obj _ _ _ _ _ _ _ hloop
      rw [transformStep_eq env obj _ _ _ _ g _ hg, if_neg]
      rintro ⟨ht, h200, hct⟩
      exact hn ⟨ht, hp, g, hg, h200, hct⟩
    · rw [if_neg hp]
      rfl

/-- A run that transforms: the object GET answers 404 and the parent HEAD
answers 200 with `image/jpeg`. -/
theorem handleGET_transform_gate_witness :
    (sampleThumb false).Key ≠ "" ∧
    sampleWorld.cache.lookup (sampleThumb false).Key = none ∧
    resLoop (sampleThumb false) (walk (sampleThumb false) [] none).2 [.resChan]
        (loopStart (sampleEnv 404 200 "image/jpeg" true) (sampleThumb false)
          (walk (sampleThumb false) [] none).2)
        (cacheGet (sampleThumb false).Key sampleWorld).2 =
      .ok (.broke ⟨1, 404, [], 0, ""⟩, ⟨some ⟨1, 404, [], 0, ""⟩, none, none, none⟩,
        (cacheGet (sampleThumb false).Key sampleWorld).2) ∧
    handleGET (sampleEnv 404 200 "image/jpeg" true) [.resChan] (sampleReq "GET")
        (sampleThumb false) sampleWorld =
      .ok (processImage (sampleEnv 404 200 "image/jpeg" true) (sampleThumb false)
        ((sampleEnv 404 200 "image/jpeg" true).storageGet (rootOf (sampleThumb false)))
        (parentToLeaf (sampleThumb false)) (cacheGet (sampleThumb false).Key sampleWorld).2) :=
  ⟨by decide, rfl, rfl,
    (handleGET_transform_gate (sampleEnv 404 200 "image/jpeg" true) [.resChan]
      (sampleReq "GET") (sampleThumb false) sampleWorld
      ((sampleEnv 404 200 "image/jpeg" true).storageGet (sampleThumb false))
      ⟨some ((sampleEnv 404 200 "image/jpeg" true).storageGet (sampleThumb false)), none, none,
        none⟩
      (cacheGet (sampleThumb false).Key sampleWorld).2 (by decide) (Or.inl rfl) rfl).2.2.1
      ⟨rfl, rfl, _, rfl, rfl, rfl⟩⟩

/-- C3 as stated fails: the parent `Content-Type` is `text/plain; x=image/png`,
which does not begin with `image/`, the object GET answers 404, and yet
`processImage` is performed and the response of the engine is returned, not
the object GET response. -/
theorem handleGET_transform_gate_counterexample :
    stringsHasPrefix (headerGet ((sampleEnv 404 200 "text/plain; x=image/png" true).storageHead
      sampleRoot).Headers HeaderContentType) "image/" = false ∧
    resLoop (sampleThumb false) (walk (sampleThumb false) [] none).2 [.resChan]
        (loopStart (sampleEnv 404 200 "text/plain; x=image/png" true) (sampleThumb false)
          (walk (sampleThumb false) [] none).2)
        (cacheGet (sampleThumb false).Key sampleWorld).2 =
      .ok (.broke ⟨1, 404, [], 0, ""⟩, ⟨some ⟨1, 404, [], 0, ""⟩, none, none, none⟩,
        (cacheGet (sampleThumb false).Key sampleWorld).2) ∧
    handleGET (sampleEnv 404 200 "text/plain; x=image/png" true) [.resChan] (sampleReq "GET")
        (sampleThumb false) sampleWorld =
      .ok (sampleDerived,
        { nextAddr := 101
          cache := [("cat.jpg@200x200", some { sampleDerived with addr := 100 })]
          cacheGets := ["cat.jpg@200x200"]
          takes := 1
          releases := 1
          imageCalls :=
            [⟨sampleThumb false, sampleSource "text/plain; x=image/png", [⟨["resize 200 200"]⟩]⟩]
          engineCalls :=
            [⟨sampleThumb false, sampleSource "text/plain; x=image/png", [⟨["resize 200 200"]⟩]⟩]
          writeBacks := [(sampleThumb false, { sampleDerived with addr := 100 })]
          cancels := 0
          notifies := [] }) :=
  ⟨by decide, rfl, rfl⟩

/-- C2: with a non-empty key, a cache miss, `CheckParent` set, a root parent
and no cancellation, a run of `handleGET` returns nothing while the parent
HEAD response has not been received, whatever the object GET answers and
however often it arrives; and when the parent HEAD answers 404 the run returns
that response as soon as it is received, for every schedule of arrivals, also
when the object GET answers 200. -/
theorem handleGET_parent_404 (env : Env) (sched : List Arm) (req : Request) (obj : FileObject)
    (w : World) (hkey : obj.Key ≠ "") (hmiss : w.cache.lookup obj.Key = none)
    (hcheck : obj.CheckParent = true) (hparent : obj.HasParent = true)
    (hctx : Arm.ctxDone ∉ sched) :
    (Arm.parentChan ∉ sched → handleGET env sched req obj w = .error .scheduleExhausted) ∧
    ((env.storageHead (rootOf obj)).StatusCode = 404 → Arm.parentChan ∈ sched →
      handleGET env sched req obj w =
        .ok (env.storageHead (rootOf obj), (cacheGet obj.Key w).2)) := by
  have hfetch := handleGET_eq_fetchObject env sched req obj w hkey (Or.inl hmiss)
  rw [hfetch]
  unfold fetchObject
  rw [walk_eq]
  simp only [hparent, if_true]
  constructor
  · intro hpar
    rw [resLoop_waiting obj (some (rootOf obj)) sched (loopStart env obj (some (rootOf obj)))
      (cacheGet obj.Key w).2 hcheck rfl rfl hctx hpar]
  · intro h404 hpar
    obtain ⟨s2, hs2⟩ := resLoop_parent_404 obj (some (rootOf obj)) sched
      (loopStart env obj (some (rootOf obj))) (cacheGet obj.Key w).2
      (env.storageHead (rootOf obj)) hcheck rfl rfl (by simp [loopStart, hcheck]) h404 hctx hpar
    rw [hs2]

/-- A run in which the object GET answers 200 and arrives twice before the
parent HEAD, which answers 404: the 404 of the parent is returned. -/
theorem handleGET_parent_404_witness :
    (sampleThumb true).Key ≠ "" ∧
    sampleWorld.cache.lookup (sampleThumb true).Key = none ∧
    (sampleThumb true).CheckParent = true ∧
    (sampleThumb true).HasParent = true ∧
    Arm.ctxDone ∉ [Arm.resChan, Arm.dflt, Arm.resChan, Arm.parentChan] ∧
    ((sampleEnv 200 404 "image/jpeg" true).storageGet (sampleThumb true)).StatusCode = 200 ∧
    handleGET (sampleEnv 200 404 "image/jpeg" true)
        [Arm.resChan, Arm.dflt, Arm.resChan, Arm.parentChan] (sampleReq "GET")
        (sampleThumb true) sampleWorld =
      .ok (⟨3, 404, [("Content-Type", "image/jpeg")], 4, ""⟩,
        { sampleWorld with cacheGets := ["cat.jpg@200x200"] }) :=
  ⟨by decide, rfl, rfl, rfl, by decide, rfl,
    (handleGET_parent_404 (sampleEnv 200 404 "image/jpeg" true)
      [Arm.resChan, Arm.dflt, Arm.resChan, Arm.parentChan] (sampleReq "GET")
      (sampleThumb true) sampleWorld (by decide) rfl rfl rfl (by decide)).2 rfl (by decide)⟩

/-- C5, the failing input: a waiter of `collapseGET` that finds the key in the
derivative cache returns the stored response itself, at its address 7 and
without an allocation, where the probe of `handleGET` on the same world
returns a copy at the fresh address 100. -/
theorem collapseGET_serves_stored_response :
    collapseGET (sampleEnv 404 200 "image/jpeg" true) [] [.dflt] (sampleReq "GET")
        (sampleThumb true) cachedWorld =
      .ok (sampleCached,
        { cachedWorld with cacheGets := ["cat.jpg@200x200"], cancels := 1 }) ∧
    cachedWorld.cache.lookup (sampleThumb true).Key = some (some sampleCached) ∧
    handleGET (sampleEnv 404 200 "image/jpeg" true) [] (sampleReq "GET")
        (sampleThumb true) cachedWorld =
      .ok ({ sampleCached with addr := 100 },
        { cachedWorld with cacheGets := ["cat.jpg@200x200"], nextAddr := 101 }) :=
  ⟨rfl, rfl, rfl⟩

/-- C10: `handleGET` never dereferences a nil `parentRes`, for every
environment, schedule, request, object and world. With `CheckParent` set and a
root parent, the selection loop is left through the arm of the object GET, by
`break` or by `return`, only with a parent response whose status is not 0;
with `CheckParent` unset the gate reads the response of `storage.Head`. -/
theorem handleGET_parentRes_not_nil (env : Env) (sched : List Arm) (req : Request)
    (obj : FileObject) (w : World) :
    handleGET env sched req obj w ≠ .error .nilParentRes ∧
    (∀ (po : Option FileObject) (s : LoopState) (e : LoopExit) (s2 : LoopState) (w2 : World),
      obj.CheckParent = true → po.isSome = true →
      resLoop obj po sched s w = .ok (e, s2, w2) →
      ((∃ res, e = .broke res) ∨ (∃ r, e = .returned .resChan r)) →
        ∃ pr, s2.parentRes = some pr ∧ pr.StatusCode ≠ 0) ∧
    (∀ (p : FileObject) (parentRes : Option Response), obj.CheckParent = false →
      gateParentRes env obj p parentRes = some (env.storageHead p)) := by
  refine ⟨?_, ?_, ?_⟩
  · unfold handleGET
    split
    · simp
    · split
      · exact fetchObject_no_nil _ _ _ _
      · simp
      · split
        · simp
        · exact fetchObject_no_nil _ _ _ _
  · intro po s e s2 w2 hc hp h he
    exact resLoop_obj_exit obj po sched s w e s2 w2 h hc hp he
  · intro p parentRes hc
    simp [gateParentRes, hc]

/-- A run with `CheckParent` set in which the parent HEAD (200) arrives before
the object GET (404): the loop is left by `break` with the parent response in
`parentRes`, and the run does not fault. -/
theorem handleGET_parentRes_not_nil_witness :
    handleGET (sampleEnv 404 200 "image/jpeg" true) [.parentChan, .resChan] (sampleReq "GET")
      (sampleThumb true) sampleWorld ≠ .error .nilParentRes ∧
    resLoop (sampleThumb true) (some sampleRoot) [.parentChan, .resChan]
        (loopStart (sampleEnv 404 200 "image/jpeg" true) (sampleThumb true) (some sampleRoot))
        sampleWorld =
      .ok (.broke ⟨1, 404, [], 0, ""⟩,
        ⟨some ⟨1, 404, [], 0, ""⟩, some ⟨3, 200, [("Content-Type", "image/jpeg")], 4, ""⟩,
          none, none⟩, sampleWorld) ∧
    ∃ pr, (some ⟨3, 200, [("Content-Type", "image/jpeg")], 4, ""⟩ : Option Response) = some pr ∧
      pr.StatusCode ≠ 0 :=
  ⟨(handleGET_parentRes_not_nil (sampleEnv 404 200 "image/jpeg" true) [.parentChan, .resChan]
      (sampleReq "GET") (sampleThumb true) sampleWorld).1, rfl,
    (handleGET_parentRes_not_nil (sampleEnv 404 200 "image/jpeg" true) [.parentChan, .resChan]
      (sampleReq "GET") (sampleThumb true) sampleWorld).2.1 (some sampleRoot)
      (loopStart (sampleEnv 404 200 "image/jpeg" true) (sampleThumb true) (some sampleRoot))
      (.broke ⟨1, 404, [], 0, ""⟩)
      ⟨some ⟨1, 404, [], 0, ""⟩, some ⟨3, 200, [("Content-Type", "image/jpeg")], 4, ""⟩,
        none, none⟩ sampleWorld rfl rfl rfl (Or.inl ⟨_, rfl⟩)⟩

/-- The gate does fault on a nil `parentRes` when it is entered, with
`CheckParent` set, from a state the selection loop cannot leave through
`break`: the guarantee of C10 rests on the loop. -/
theorem transformStep_nil_parentRes :
    transformStep (sampleEnv 404 200 "image/jpeg" true) (sampleThumb true) (some sampleRoot)
      [⟨["resize 200 200"]⟩] ⟨1, 404, [], 0, ""⟩ none sampleWorld = .error .nilParentRes :=
  rfl

/-! ### Concurrent requests for one key -/

/-- A call of `processImage` invokes the engine at most once, and a response it
stores under the key carries the body of the response it returns. -/
theorem processImage_effect (env : Env) (obj : FileObject) (parent : Response)
    (ts : List Transforms) (w : World) :
    (processImage env obj parent ts w).2.engineCalls.length ≤ w.engineCalls.length + 1 ∧
    ((processImage env obj parent ts w).2.cache = w.cache ∨
      ∀ c, (processImage env obj parent ts w).2.cache.lookup obj.Key = some (some c) →
        c.body = (processImage env obj parent ts w).1.body) := by
  unfold processImage
  cases env.throttlerTake
  · simp [NewNoContent]
  · cases hE : env.engineProcess obj parent ts with
    | error err => simp [hE, NewError]
    | ok res =>
      cases hC : env.copyFails res
      · refine ⟨by simp [hE, hC, Copy, cacheSet], Or.inr ?_⟩
        intro c hc
        simp only [hE, hC, Copy, cacheSet, Bool.not_true, Bool.false_eq_true, if_false,
          List.lookup, beq_self_eq_true, Option.some.injEq] at hc
        rw [← hc]
        simp [hE, hC, Copy]
      · refine ⟨by simp [hE, hC, Copy, cacheSet], Or.inr ?_⟩
        intro c hc
        simp [hE, hC, Copy, cacheSet, List.lookup] at hc

/-- A run of `handleGET` on a cache that misses the key invokes the engine at
most once, and a response it leaves in the cache under the key carries the
body of the response it returns. -/
theorem handleGET_effect (env : Env) (sched : List Arm) (req : Request) (obj : FileObject)
    (w : World) (r : Response) (w2 : World) (h : handleGET env sched req obj w = .ok (r, w2))
    (hmiss : w.cache.lookup obj.Key = none) :
    w2.engineCalls.length ≤ w.engineCalls.length + 1 ∧
    ∀ c, w2.cache.lookup obj.Key = some (some c) → c.body = r.body := by
  rcases handleGET_cases env sched req obj w r w2 h with ⟨-, h2, h3⟩ | h1
  · refine ⟨by rw [h2]; omega, ?_⟩
    intro c hc
    rw [h3, hmiss] at hc
    simp at hc
  · have hr : r = (processImage env obj (env.storageGet (rootOf obj)) (parentToLeaf obj)
        (cacheGet obj.Key w).2).1 := congrArg Prod.fst h1
    have hw : w2 = (processImage env obj (env.storageGet (rootOf obj)) (parentToLeaf obj)
        (cacheGet obj.Key w).2).2 := congrArg Prod.snd h1
    have he := processImage_effect env obj (env.storageGet (rootOf obj)) (parentToLeaf obj)
      (cacheGet obj.Key w).2
    rw [← hr, ← hw] at he
    refine ⟨he.1, ?_⟩
    rcases he.2 with hc1 | hc1
    · intro c hc
      rw [hc1] at hc
      simp only [cacheGet] at hc
      rw [hmiss] at hc
      simp at hc
    · exact hc1

/-- A waiter whose wait loop sees only its default arm and deliveries of the
body `lb`, on a cache whose entry for the key, if any, carries the body `lb`:
the response it returns carries `lb`, and it touches neither the cache nor the
engine. -/
theorem waitLoop_served (env : Env) (sched : List Arm) (req : Request) (obj : FileObject)
    (wsched : List WaitArm) (w : World) (r : Response) (w2 : World) (lb : String)
    (h : waitLoop env sched req obj wsched w = .ok (r, w2))
    (harms : ∀ a ∈ wsched, a = .dflt ∨ ∃ d, a = .delivered d ∧ d.body = lb)
    (hinv : ∀ c, w.cache.lookup obj.Key = some (some c) → c.body = lb) :
    r.body = lb ∧ w2.cache = w.cache ∧ w2.engineCalls = w.engineCalls := by
  induction wsched generalizing w with
  | nil => simp [waitLoop] at h
  | cons a rest ih =>
    have ha := harms a (by simp)
    have hrest : ∀ b ∈ rest, b = .dflt ∨ ∃ d, b = .delivered d ∧ d.body = lb :=
      fun b hb => harms b (by simp [hb])
    rcases ha with rfl | ⟨d, rfl, hd⟩
    · rw [waitLoop] at h
      simp only [cacheGet] at h
      cases hl : w.cache.lookup obj.Key with
      | none =>
        simp only [hl] at h
        have := ih _ h hrest (by intro c hc; exact hinv c hc)
        exact this
      | some v =>
        cases v with
        | none => simp [hl] at h
        | some c =>
          simp only [hl, Except.ok.injEq, Prod.mk.injEq] at h
          refine ⟨?_, ?_, ?_⟩
          · rw [← h.1]; exact hinv c hl
          · rw [← h.2]
          · rw [← h.2]
    · simp only [waitLoop, Except.ok.injEq, Prod.mk.injEq] at h
      refine ⟨?_, ?_, ?_⟩
      · rw [← h.1]; exact hd
      · rw [← h.2]
      · rw [← h.2]

/-- Waiters as in `waitLoop_served`, one after the other on the shared world. -/
theorem collapseRuns_waiters (env : Env) (req : Request) (obj : FileObject)
    (waiters : List Run) (w : World) (rs : List Response) (w2 : World) (lb : String)
    (h : collapseRuns env req obj waiters w = .ok (rs, w2))
    (hwait : ∀ run ∈ waiters, run.locked = false)
    (harms : ∀ run ∈ waiters, ∀ a ∈ run.wsched,
      a = .dflt ∨ ∃ d, a = .delivered d ∧ d.body = lb)
    (hinv : ∀ c, w.cache.lookup obj.Key = some (some c) → c.body = lb) :
    (∀ r ∈ rs, r.body = lb) ∧ rs.length = waiters.length ∧
      w2.engineCalls = w.engineCalls := by
  induction waiters generalizing w rs w2 with
  | nil =>
    simp only [collapseRuns, Except.ok.injEq, Prod.mk.injEq] at h
    rw [← h.1, ← h.2]
    simp
  | cons run rest ih =>
    have hl : run.locked = false := hwait run (by simp)
    rw [collapseRuns] at h
    simp only [collapseGET, hl, Bool.false_eq_true, if_false] at h
    split at h
    · simp at h
    · rename_i r1 w1 h1
      split at h
      · simp at h
      · rename_i rs1 w3 h3
        simp only [Except.ok.injEq, Prod.mk.injEq] at h
        have hs := waitLoop_served _ _ _ _ _ _ _ _ lb h1 (harms run (by simp)) hinv
        have hr := ih w1 rs1 w3 h3 (fun x hx => hwait x (by simp [hx]))
          (fun x hx => harms x (by simp [hx])) (by rw [hs.2.1]; exact hinv)
        rw [← h.1, ← h.2]
        refine ⟨?_, by simp [hr.2.1], by rw [hr.2.2, hs.2.2]⟩
        intro r hr1
        rcases List.mem_cons.1 hr1 with rfl | hr2
        · exact hs.1
        · exact hr.1 r hr2

/-- C4 (amended): N requests for the same key are processed by `collapseGET`
on a cache that does not hold the key; the first acquires the lock, the others
wait on it, and each waiter leaves its wait loop with a response delivered by
the lock that carries the body of the leader or through a hit in the cache,
with no timer expiry, no cancellation and no closed channel. When all of them
return a response, the engine is invoked at most once and all N responses
carry the same body. -/
theorem collapseRuns_single_flight (env : Env) (req : Request) (obj : FileObject)
    (leader : Run) (waiters : List Run) (w : World) (lr : Response) (wrs : List Response)
    (w2 : World)
    (hempty : w.cache.lookup obj.Key = none)
    (hleader : leader.locked = true)
    (hwait : ∀ run ∈ waiters, run.locked = false)
    (hrun : collapseRuns env req obj (leader :: waiters) w = .ok (lr :: wrs, w2))
    (harms : ∀ run ∈ waiters, ∀ a ∈ run.wsched,
      a = .dflt ∨ ∃ d, a = .delivered d ∧ d.body = lr.body) :
    w2.engineCalls.length ≤ w.engineCalls.length + 1 ∧
    (∀ r ∈ lr :: wrs, r.body = lr.body) ∧
    (lr :: wrs).length = (leader :: waiters).length := by
  rw [collapseRuns] at hrun
  simp only [collapseGET, hleader, if_true] at hrun
  split at hrun
  · simp at hrun
  · rename_i r1 w1 h1
    split at h1
    · rename_i r0 w0 h0
      simp only [Except.ok.injEq, Prod.mk.injEq] at h1
      split at hrun
      · simp at hrun
      · rename_i rs1 w3 h3
        simp only [Except.ok.injEq, Prod.mk.injEq, List.cons.injEq] at hrun
        obtain ⟨⟨hr, hrs⟩, hw⟩ := hrun
        subst hr hrs hw
        obtain ⟨hr0, hw0⟩ := h1
        subst hr0
        have he := handleGET_effect _ _ req obj w r0 w0 h0 hempty
        have hws := collapseRuns_waiters env req obj waiters w1 rs1 w3 r0.body h3 hwait harms
          (by rw [← hw0]; exact he.2)
        refine ⟨?_, ?_, by simp [hws.2.1]⟩
        · rw [hws.2.2, ← hw0]
          exact he.1
        · intro r hr
          rcases List.mem_cons.1 hr with rfl | hr2
          · rfl
          · exact hws.1 r hr2
    · simp at h1

/-- A leader and two waiters on an empty cache: one waiter is served from the
cache, the other receives a delivery with the body of the leader. -/
theorem collapseRuns_single_flight_witness :
    sampleWorld.cache.lookup (sampleThumb false).Key = none ∧
    (collapseRuns (sampleEnv 404 200 "image/jpeg" true) (sampleReq "GET") (sampleThumb false)
        [⟨true, [.resChan], []⟩, ⟨false, [], [.dflt]⟩,
          ⟨false, [], [.delivered { sampleDerived with addr := 50 }]⟩] sampleWorld).map
        (fun x => (x.1.map (fun r => r.body), x.2.engineCalls.length)) =
      .ok (["THUMB", "THUMB", "THUMB"], 1) ∧
    ∀ r ∈ [sampleDerived, { sampleDerived with addr := 100 }, { sampleDerived with addr := 50 }],
      r.body = sampleDerived.body :=
  ⟨rfl, rfl,
    (collapseRuns_single_flight (sampleEnv 404 200 "image/jpeg" true) (sampleReq "GET")
      (sampleThumb false) ⟨true, [.resChan], []⟩
      [⟨false, [], [.dflt]⟩, ⟨false, [], [.delivered { sampleDerived with addr := 50 }]⟩]
      sampleWorld sampleDerived
      [{ sampleDerived with addr := 100 }, { sampleDerived with addr := 50 }] _
      rfl rfl (by decide) rfl
      (by
        intro run hmem a ha
        simp only [List.mem_cons, List.mem_singleton, List.not_mem_nil, or_false] at hmem
        rcases hmem with rfl | rfl
        · simp only [List.mem_singleton] at ha
          exact Or.inl ha
        · simp only [List.mem_singleton] at ha
          exact Or.inr ⟨_, ha, rfl⟩)).2.1⟩

/-- C4 as stated fails. On an empty cache, a leader that transforms and a
waiter whose timer fires return the bodies `THUMB` and `timeout`; and with an
engine that reports an error, a leader and a waiter that finds the channel
closed, and so runs `handleGET` inline, invoke the engine twice. -/
theorem collapseRuns_single_flight_counterexample :
    (collapseRuns (sampleEnv 404 200 "image/jpeg" true) (sampleReq "GET") (sampleThumb false)
        [⟨true, [.resChan], []⟩, ⟨false, [], [.timer]⟩] sampleWorld).map
        (fun x => (x.1.map (fun r => r.body), x.2.engineCalls.length)) =
      .ok (["THUMB", "timeout"], 1) ∧
    (collapseRuns failingEngineEnv (sampleReq "GET") (sampleThumb false)
        [⟨true, [.resChan], []⟩, ⟨false, [.resChan], [.closed]⟩] sampleWorld).map
        (fun x => (x.1.map (fun r => r.StatusCode), x.2.engineCalls.length)) =
      .ok ([400, 400], 2) :=
  ⟨rfl, rfl⟩

end Mort
